import Mathlib

/-!
Verification development for the spice2json schema mapper.

The Go sources (`main.go`, `mapSchema.go`) translate a compiled SpiceDB
schema tree into a JSON-ready document model.  This file shallowly embeds
the mapping functions and the fragments of the compiled-schema data model
they consume, and proves the specified properties about them.

Modelling conventions:
* Proto `oneof` fields are closed inductives with an extra `unset`
  constructor covering both an unpopulated oneof and a nil message pointer
  (the Go accessors return nil in either case).
* Go byte-slice payloads are modelled as `List Char` (the code converts
  them to strings immediately; the claims only involve ASCII payloads).
* A Go runtime panic (e.g. slicing `b[2:]` when `len(b) < 2`) is modelled
  as `Option.none`; error returns are modelled with `Except String`.
* The two near-duplicate mapper files are embedded in namespaces `Main`
  (main.go) and `MapSchema` (mapSchema.go) where they differ.
-/

namespace Core

/-- One entry of `corev1.Metadata.MetadataMessage`: an `anypb.Any` with a
type URL tag and an opaque payload (`d.GetTypeUrl()`, `d.GetValue()`). -/
structure MetadataMsg where
  typeUrl : String
  value : List Char
deriving DecidableEq

mutual

/-- `corev1.UsersetRewrite`: oneof over union / intersection / exclusion,
each carrying the `SetOperation`'s child list.  `unset` covers a nil
pointer or an unpopulated oneof (all three Go accessors return nil). -/
inductive UsersetRewrite : Type where
  | unset : UsersetRewrite
  | union (children : List Child) : UsersetRewrite
  | intersection (children : List Child) : UsersetRewrite
  | exclusion (children : List Child) : UsersetRewrite

/-- `corev1.SetOperation_Child`: oneof over the three shapes the mapper
inspects (computed userset, tuple-to-userset, nested rewrite); `unset`
covers a child with none of these populated. -/
inductive Child : Type where
  | unset : Child
  | computedUserset (relation : String) : Child
  | tupleToUserset (tuplesetRelation : String) (computedUsersetRelation : String) : Child
  | usersetRewrite (rewrite : UsersetRewrite) : Child

end

end Core

namespace Main

/-- Output `UserSet` struct of main.go: fields `Operation`, `Relation`,
`Permission`, `Children` (a nil/empty Go slice is `[]`; a nil `*UserSet`
entry inside `Children` is `none`). -/
inductive UserSet : Type where
  | mk (Operation Relation Permission : String) (Children : List (Option UserSet)) : UserSet

def UserSet.Operation : UserSet → String
  | .mk o _ _ _ => o

def UserSet.Relation : UserSet → String
  | .mk _ r _ _ => r

def UserSet.Permission : UserSet → String
  | .mk _ _ p _ => p

def UserSet.Children : UserSet → List (Option UserSet)
  | .mk _ _ _ c => c

mutual

/-- `mapUserSet` (main.go:167-193): dispatch on which operator variant of
the rewrite is populated; nil/unset maps to a nil pointer (`none`). -/
def mapUserSet : Core.UsersetRewrite → Option UserSet
  | .unset => none
  | .union cs => some (.mk "union" "" "" (mapUserSetChild cs))
  | .intersection cs => some (.mk "intersection" "" "" (mapUserSetChild cs))
  | .exclusion cs => some (.mk "exclusion" "" "" (mapUserSetChild cs))

/-- Loop body of `mapUserSetChild` (main.go:195-219): the entries one child
appends to `sets` (zero entries when no shape is populated; note a nested
rewrite appends the possibly-nil result of `mapUserSet` as-is). -/
def childSets : Core.Child → List (Option UserSet)
  | .unset => []
  | .computedUserset r => [some (.mk "" r "" [])]
  | .tupleToUserset t p => [some (.mk "" t p [])]
  | .usersetRewrite rw => [mapUserSet rw]

/-- `mapUserSetChild` (main.go:195-219): concatenation of each child's
appended entries, in source order. -/
def mapUserSetChild : List Core.Child → List (Option UserSet)
  | [] => []
  | c :: rest => childSets c ++ mapUserSetChild rest

end

end Main

namespace Core

mutual

/-- Well-formedness of a rewrite: one operator variant is populated and
every descendant child is well-formed. -/
def UsersetRewrite.wf : UsersetRewrite → Bool
  | .unset => false
  | .union cs => childrenWf cs
  | .intersection cs => childrenWf cs
  | .exclusion cs => childrenWf cs

/-- Well-formedness of a child operation: one of the three shapes is
populated, and a nested rewrite is itself well-formed. -/
def Child.wf : Child → Bool
  | .unset => false
  | .computedUserset _ => true
  | .tupleToUserset _ _ => true
  | .usersetRewrite rw => rw.wf

def childrenWf : List Child → Bool
  | [] => true
  | c :: rest => c.wf && childrenWf rest

end

end Core

namespace SpecModel

mutual

/-- Mirror tree described by the spec (section 4.4): root operation is the
populated operator's name; each child becomes, in source order, a direct
leaf, an indirect leaf, or a recursively mirrored subtree.  Stated from
the spec's words, for comparison with `Main.mapUserSet`.  (The `unset`
cases are irrelevant under well-formedness.) -/
def mirror : Core.UsersetRewrite → Main.UserSet
  | .unset => .mk "" "" "" []
  | .union cs => .mk "union" "" "" (mirrorChildren cs)
  | .intersection cs => .mk "intersection" "" "" (mirrorChildren cs)
  | .exclusion cs => .mk "exclusion" "" "" (mirrorChildren cs)

def mirrorChild : Core.Child → Option Main.UserSet
  | .unset => none
  | .computedUserset r => some (.mk "" r "" [])
  | .tupleToUserset t p => some (.mk "" t p [])
  | .usersetRewrite rw => some (mirror rw)

def mirrorChildren : List Core.Child → List (Option Main.UserSet)
  | [] => []
  | c :: rest => mirrorChild c :: mirrorChildren rest

end

end SpecModel

mutual

theorem mapUserSet_eq_mirror :
    ∀ r : Core.UsersetRewrite, r.wf = true →
      Main.mapUserSet r = some (SpecModel.mirror r)
  | .unset, h => by simp [Core.UsersetRewrite.wf] at h
  | .union cs, h => by
      simp only [Core.UsersetRewrite.wf] at h
      simp [Main.mapUserSet, SpecModel.mirror, mapUserSetChild_eq_mirror cs h]
  | .intersection cs, h => by
      simp only [Core.UsersetRewrite.wf] at h
      simp [Main.mapUserSet, SpecModel.mirror, mapUserSetChild_eq_mirror cs h]
  | .exclusion cs, h => by
      simp only [Core.UsersetRewrite.wf] at h
      simp [Main.mapUserSet, SpecModel.mirror, mapUserSetChild_eq_mirror cs h]

theorem childSets_eq_mirror :
    ∀ c : Core.Child, c.wf = true →
      Main.childSets c = [SpecModel.mirrorChild c]
  | .unset, h => by simp [Core.Child.wf] at h
  | .computedUserset r, _ => rfl
  | .tupleToUserset t p, _ => rfl
  | .usersetRewrite rw, h => by
      simp only [Core.Child.wf] at h
      simp [Main.childSets, SpecModel.mirrorChild, mapUserSet_eq_mirror rw h]

theorem mapUserSetChild_eq_mirror :
    ∀ cs : List Core.Child, Core.childrenWf cs = true →
      Main.mapUserSetChild cs = SpecModel.mirrorChildren cs
  | [], _ => rfl
  | c :: rest, h => by
      simp only [Core.childrenWf, Bool.and_eq_true] at h
      simp [Main.mapUserSetChild, SpecModel.mirrorChildren,
        childSets_eq_mirror c h.1, mapUserSetChild_eq_mirror rest h.2]

end

/-- C1: for a rewrite rule whose operator variant is populated and all of
whose descendant children are well-formed, `mapUserSet` produces exactly
the spec's mirror tree: root operation is the populated operator's name,
children appear in source order, nested rules recurse to subtrees of
matching depth, and no flattening, deduplication or simplification
occurs (`SpecModel.mirror` is one node per input node, in order). -/
theorem mapUserSet_mirrors_wellFormed_rule (r : Core.UsersetRewrite)
    (h : r.wf = true) : Main.mapUserSet r = some (SpecModel.mirror r) :=
  mapUserSet_eq_mirror r h

/-- Witness for C1 at an exclusion rule with children `[A, B, C]`: the
output is an `exclusion` node whose children are exactly `[A, B, C]` in
that order. -/
theorem mapUserSet_mirrors_wellFormed_rule_witness :
    Core.UsersetRewrite.wf
      (.exclusion [.computedUserset "A", .computedUserset "B",
        .computedUserset "C"]) = true ∧
    Main.mapUserSet
      (.exclusion [.computedUserset "A", .computedUserset "B",
        .computedUserset "C"]) =
      some (.mk "exclusion" "" ""
        [some (.mk "" "A" "" []), some (.mk "" "B" "" []),
         some (.mk "" "C" "" [])]) :=
  ⟨rfl, (mapUserSet_mirrors_wellFormed_rule
    (.exclusion [.computedUserset "A", .computedUserset "B",
      .computedUserset "C"]) rfl).trans rfl⟩

/-- C9: malformed rewrite nodes degrade silently.  A rewrite with no
operator variant populated maps to a nil (`none`) UserSet, and a child
operation with none of its three shapes populated contributes nothing to
the parent's children; both mappers are total functions into plain values
(no error channel exists in their types). -/
theorem malformed_rewrite_degrades_silently :
    Main.mapUserSet Core.UsersetRewrite.unset = none ∧
    ∀ cs1 cs2 : List Core.Child,
      Main.mapUserSetChild (cs1 ++ Core.Child.unset :: cs2) =
        Main.mapUserSetChild cs1 ++ Main.mapUserSetChild cs2 := by
  refine ⟨rfl, ?_⟩
  intro cs1 cs2
  induction cs1 with
  | nil => simp [Main.mapUserSetChild, Main.childSets]
  | cons c rest ih => simp [Main.mapUserSetChild, ih]

/-- Shape invariant for produced UserSet nodes: a node is either an
operator node (operation one of union/intersection/exclusion, leaf fields
empty, every non-nil child again shaped) or a leaf node (operation empty,
no children). -/
inductive ShapedNode : Main.UserSet → Prop where
  | opNode (o : String) (cs : List (Option Main.UserSet)) :
      (o = "union" ∨ o = "intersection" ∨ o = "exclusion") →
      (∀ u, some u ∈ cs → ShapedNode u) →
      ShapedNode (.mk o "" "" cs)
  | leaf (r p : String) : ShapedNode (.mk "" r p [])

mutual

theorem shapedNode_mapUserSet :
    ∀ r : Core.UsersetRewrite, ∀ u, Main.mapUserSet r = some u → ShapedNode u
  | .unset, u, h => by simp [Main.mapUserSet] at h
  | .union cs, u, h => by
      rw [Main.mapUserSet] at h
      cases h
      exact .opNode _ _ (Or.inl rfl) (fun v hv => shapedNode_children cs v hv)
  | .intersection cs, u, h => by
      rw [Main.mapUserSet] at h
      cases h
      exact .opNode _ _ (Or.inr (Or.inl rfl)) (fun v hv => shapedNode_children cs v hv)
  | .exclusion cs, u, h => by
      rw [Main.mapUserSet] at h
      cases h
      exact .opNode _ _ (Or.inr (Or.inr rfl)) (fun v hv => shapedNode_children cs v hv)

theorem shapedNode_childSets :
    ∀ c : Core.Child, ∀ u, some u ∈ Main.childSets c → ShapedNode u
  | .unset, u, h => by simp [Main.childSets] at h
  | .computedUserset r, u, h => by
      simp only [Main.childSets, List.mem_singleton, Option.some.injEq] at h
      exact h ▸ .leaf r ""
  | .tupleToUserset t p, u, h => by
      simp only [Main.childSets, List.mem_singleton, Option.some.injEq] at h
      exact h ▸ .leaf t p
  | .usersetRewrite rw, u, h => by
      simp only [Main.childSets, List.mem_singleton] at h
      exact shapedNode_mapUserSet rw u h.symm

theorem shapedNode_children :
    ∀ cs : List Core.Child, ∀ u, some u ∈ Main.mapUserSetChild cs → ShapedNode u
  | [], u, h => by simp [Main.mapUserSetChild] at h
  | c :: rest, u, h => by
      rw [Main.mapUserSetChild, List.mem_append] at h
      cases h with
      | inl h => exact shapedNode_childSets c u h
      | inr h => exact shapedNode_children rest u h

end

/-- C10: every UserSet node the rewrite-tree mapper produces is exclusively
one of the two shapes: an operator node (operation populated with one of
the three operator names, `relation` and `permission` empty) or a leaf node
(`operation` empty, `children` empty), and the invariant holds recursively
for every non-nil child — never both shapes at once. -/
theorem mapUserSet_nodes_are_shaped (r : Core.UsersetRewrite)
    (u : Main.UserSet) (h : Main.mapUserSet r = some u) : ShapedNode u :=
  shapedNode_mapUserSet r u h

/-- Witness for C10 at a concrete union-of-leaf input. -/
theorem mapUserSet_nodes_are_shaped_witness :
    ShapedNode (.mk "union" "" "" [some (.mk "" "owner" "" [])]) :=
  mapUserSet_nodes_are_shaped (.union [.computedUserset "owner"]) _ rfl

/-- The type URL both extractors filter on (main.go:250, mapSchema.go:98). -/
def docCommentTypeUrl : String := "type.googleapis.com/impl.v1.DocComment"

/-- `unicode.IsSpace` on the code points Go's `strings.TrimSpace` trims
(restricted to Latin-1, which covers every payload in this development). -/
def goIsSpace (c : Char) : Bool :=
  c = '\t' || c = '\n' || c = Char.ofNat 11 || c = Char.ofNat 12 ||
    c = '\r' || c = ' ' || c = Char.ofNat 0x85 || c = Char.ofNat 0xA0

/-- `strings.TrimSpace`: drop whitespace from both ends. -/
def trimSpace (l : List Char) : List Char :=
  ((l.dropWhile goIsSpace).reverse.dropWhile goIsSpace).reverse

/-- Go slice expression `b[2:]`: defined only when `2 ≤ len(b)`, otherwise
the program panics (modelled as `none`). -/
def goDrop2 (b : List Char) : Option (List Char) :=
  if 2 ≤ b.length then some (b.drop 2) else none

namespace Main

/-- Loop of `getMetadataComments` (main.go:247-255): concatenate, in
attachment order, `value[2:] ++ "\n"` for every doc-comment attachment
(`none` models the panic of `d.GetValue()[2:]` on a short payload). -/
def commentFold : List Core.MetadataMsg → Option (List Char)
  | [] => some []
  | d :: rest =>
    if d.typeUrl = docCommentTypeUrl then
      match goDrop2 d.value with
      | none => none
      | some v =>
        match commentFold rest with
        | none => none
        | some r => some (v ++ '\n' :: r)
    else commentFold rest

/-- `getMetadataComments` (main.go:247-255): fold the attachments, then
`strings.TrimSpace` the concatenation. -/
def getMetadataComments (m : List Core.MetadataMsg) : Option String :=
  (commentFold m).map fun l => String.mk (trimSpace l)

end Main

/-- The literal alternatives of `commentRegex = (/[*]\x7b1,2\x7d ?|// ?| ?[*] | ?[*]?/)`
(mapSchema.go:93), listed in the backtracking preference order Go's
leftmost-first regexp semantics explores them: each alternative is a finite
set of literal strings (greedy options first), tried left to right. -/
def commentRegexCandidates : List (List Char) :=
  [['/', '*', '*', ' '], ['/', '*', '*'], ['/', '*', ' '], ['/', '*'],
   ['/', '/', ' '], ['/', '/'],
   [' ', '*', ' '], ['*', ' '],
   [' ', '*', '/'], [' ', '/'], ['*', '/'], ['/']]

/-- The regex match attempted at one position: the first candidate that is
a prefix of the remaining input (leftmost-first alternation). -/
def tryMatch (l : List Char) : Option (List Char) :=
  commentRegexCandidates.find? fun p => p.isPrefixOf l

/-- One left-to-right `ReplaceAllString(s, "")` scan: at each position
delete the match if any (every candidate is nonempty, so the scan always
advances), else keep the character.  Fuel is the input length, which
bounds the number of steps. -/
def stripGo : Nat → List Char → List Char
  | 0, l => l
  | _ + 1, [] => []
  | fuel + 1, c :: cs =>
    match tryMatch (c :: cs) with
    | some p => stripGo fuel (List.drop (p.length - 1) cs)
    | none => c :: stripGo fuel cs

/-- `commentRegex.ReplaceAllString(s, "")` (mapSchema.go:99). -/
def stripComment (l : List Char) : List Char := stripGo l.length l

namespace MapSchema

/-- Loop of `getMetadataComments` (mapSchema.go:95-103): like the main.go
version but each payload is stripped of comment decoration by the regex
replacement before concatenation. -/
def commentFold : List Core.MetadataMsg → Option (List Char)
  | [] => some []
  | d :: rest =>
    if d.typeUrl = docCommentTypeUrl then
      match goDrop2 d.value with
      | none => none
      | some v =>
        match commentFold rest with
        | none => none
        | some r => some (stripComment v ++ '\n' :: r)
    else commentFold rest

/-- `getMetadataComments` (mapSchema.go:95-103). -/
def getMetadataComments (m : List Core.MetadataMsg) : Option String :=
  (commentFold m).map fun l => String.mk (trimSpace l)

end MapSchema

/-- A metadata bag is payload-well-formed when every doc-comment attachment
carries at least the 2-byte structural prefix the extractors strip. -/
def metadataOk (m : List Core.MetadataMsg) : Bool :=
  m.all fun d => d.typeUrl ≠ docCommentTypeUrl || 2 ≤ d.value.length

theorem trimSpace_append_newline (l : List Char) :
    trimSpace (l ++ ['\n']) = trimSpace l := by
  unfold trimSpace
  rw [List.dropWhile_append]
  by_cases h : (l.dropWhile goIsSpace).isEmpty
  · have h0 : List.dropWhile goIsSpace l = [] := by simpa using h
    rw [if_pos h, h0]
    rfl
  · rw [if_neg h]
    have hrev : (List.dropWhile goIsSpace l ++ ['\n']).reverse =
        '\n' :: (List.dropWhile goIsSpace l).reverse := by
      simp
    rw [hrev, List.dropWhile_cons, if_pos (show goIsSpace '\n' = true from rfl)]

theorem commentFold_total_of_metadataOk (m : List Core.MetadataMsg)
    (h : metadataOk m = true) : ∃ l, Main.commentFold m = some l := by
  induction m with
  | nil => exact ⟨[], rfl⟩
  | cons d rest ih =>
    simp only [metadataOk, List.all_cons, Bool.and_eq_true] at h
    obtain ⟨l, hl⟩ := ih h.2
    by_cases hd : d.typeUrl = docCommentTypeUrl
    · have hlen : 2 ≤ d.value.length := by
        rcases Bool.or_eq_true_iff.mp h.1 with h1 | h1
        · exact absurd hd (by simpa using h1)
        · simpa using h1
      refine ⟨d.value.drop 2 ++ '\n' :: l, ?_⟩
      simp [Main.commentFold, hd, goDrop2, hlen, hl]
    · refine ⟨l, ?_⟩
      simp [Main.commentFold, hd, hl]

theorem commentFold_nil_of_noDoc (m : List Core.MetadataMsg)
    (h : ∀ d ∈ m, d.typeUrl ≠ docCommentTypeUrl) :
    Main.commentFold m = some [] := by
  induction m with
  | nil => rfl
  | cons d rest ih =>
    have hd : d.typeUrl ≠ docCommentTypeUrl := h d (List.mem_cons_self d rest)
    simp only [Main.commentFold, if_neg hd]
    exact ih fun x hx => h x (List.mem_cons_of_mem d hx)

/-- C3: the comment extractor removes the 2-byte prefix and strips exactly
one layer of comment-syntax decoration: the raw payload whose text after
prefix-stripping is `"/** Hello\n * World */"` yields `"Hello\nWorld"`;
and extraction is idempotent on already-normalized text: any payload whose
text after prefix-stripping carries no decoration the regex matches and no
surrounding whitespace is returned verbatim. -/
theorem comment_extraction_strips_one_layer :
    MapSchema.getMetadataComments
      [⟨docCommentTypeUrl, 'x' :: 'y' :: "/** Hello\n * World */".data⟩] =
      some "Hello\nWorld" ∧
    ∀ (a b : Char) (s : List Char), stripComment s = s → trimSpace s = s →
      MapSchema.getMetadataComments [⟨docCommentTypeUrl, a :: b :: s⟩] =
        some (String.mk s) := by
  refine ⟨rfl, ?_⟩
  intro a b s hstrip htrim
  have hdrop : goDrop2 (a :: b :: s) = some s := by
    simp [goDrop2, Nat.le_add_left]
  simp only [MapSchema.getMetadataComments, MapSchema.commentFold, if_pos rfl,
    hdrop, hstrip]
  simp [trimSpace_append_newline, htrim]

/-- Witness for C3's idempotence half: re-extracting the already-normalized
text `"Hello\nWorld"` returns it unchanged. -/
theorem comment_extraction_strips_one_layer_witness :
    stripComment "Hello\nWorld".data = "Hello\nWorld".data ∧
    MapSchema.getMetadataComments
      [⟨docCommentTypeUrl, 'x' :: 'y' :: "Hello\nWorld".data⟩] =
      some "Hello\nWorld" :=
  ⟨rfl, comment_extraction_strips_one_layer.2 'x' 'y' "Hello\nWorld".data rfl rfl⟩

/-- Counterexample to C4: the extractor is not total over every metadata
bag.  On a doc-comment attachment whose payload is the single byte `'a'` —
shorter than the 2-byte prefix — `d.GetValue()[2:]` (main.go:251) slices
out of range, a Go runtime panic, modelled here as `none` (no string is
ever returned).  The mapSchema.go copy has the same slice. -/
theorem getMetadataComments_panics_on_short_payload :
    Main.getMetadataComments [⟨docCommentTypeUrl, ['a']⟩] = none := rfl

/-- C4 (amended): the extractor never fails on any metadata bag whose
doc-comment payloads all carry at least the 2-byte prefix, and it returns
the empty string when no documentation attachment exists. -/
theorem getMetadataComments_total_on_prefixed_payloads
    (m : List Core.MetadataMsg) :
    (metadataOk m = true → ∃ s, Main.getMetadataComments m = some s) ∧
    ((∀ d ∈ m, d.typeUrl ≠ docCommentTypeUrl) →
      Main.getMetadataComments m = some "") := by
  constructor
  · intro h
    obtain ⟨l, hl⟩ := commentFold_total_of_metadataOk m h
    exact ⟨String.mk (trimSpace l), by simp [Main.getMetadataComments, hl]⟩
  · intro h
    simp [Main.getMetadataComments, commentFold_nil_of_noDoc m h, trimSpace]

/-- Witness for C4's amended claim on a bag with one non-documentation
attachment (whose payload may be arbitrarily short). -/
theorem getMetadataComments_total_on_prefixed_payloads_witness :
    (∃ s, Main.getMetadataComments [⟨"other.type", ['a']⟩] = some s) ∧
    Main.getMetadataComments [⟨"other.type", ['a']⟩] = some "" :=
  ⟨(getMetadataComments_total_on_prefixed_payloads _).1 (by decide),
   (getMetadataComments_total_on_prefixed_payloads
     [⟨"other.type", ['a']⟩]).2 (by decide)⟩

namespace Core

/-- `implv1.RelationMetadata_RelationKind`: the classification tag of a
relation. -/
inductive RelationKind : Type where
  | UNKNOWN_KIND : RelationKind
  | RELATION : RelationKind
  | PERMISSION : RelationKind
deriving DecidableEq

/-- `corev1.CaveatReference` (field `RequiredCaveat` of an allowed
relation). -/
structure CaveatReference where
  caveatName : String
deriving DecidableEq

/-- `corev1.AllowedRelation.RelationOrWildcard`: oneof over a named
sub-relation and the public-wildcard marker.  （In Go an unset oneof also
makes the `*AllowedRelation_Relation` type assertion fail, behaving like
the wildcard; compiled schemas always populate it, and the spec models the
field as this closed two-variant type.） -/
inductive RelationOrWildcard : Type where
  | relation (relation : String) : RelationOrWildcard
  | publicWildcard : RelationOrWildcard
deriving DecidableEq

/-- `corev1.AllowedRelation`. -/
structure AllowedRelation where
  Namespace : String
  relationOrWildcard : RelationOrWildcard
  requiredCaveat : Option CaveatReference
deriving DecidableEq

/-- `corev1.TypeInformation`. -/
structure TypeInformation where
  allowedDirectRelations : List AllowedRelation
deriving DecidableEq

/-- `corev1.Relation`.  `kind` is the value of the external helper
`ns.GetRelationKind(r)` (it reads the relation's metadata), i.e. the
classification tag the spec says each relation carries; `usersetRewrite`
is `r.GetUsersetRewrite()` with a nil pointer mapped to `.unset`. -/
structure Relation where
  name : String
  typeInformation : TypeInformation
  usersetRewrite : UsersetRewrite
  metadata : List MetadataMsg
  kind : RelationKind

/-- `corev1.NamespaceDefinition`. -/
structure NamespaceDefinition where
  name : String
  relation : List Relation
  metadata : List MetadataMsg

/-- `corev1.CaveatTypeReference` (only `TypeName` is consumed by the
mappers). -/
structure CaveatTypeReference where
  typeName : String
deriving DecidableEq

/-- `corev1.CaveatDefinition`.  `parameterTypes` is the Go map
`map[string]*CaveatTypeReference`, modelled as its entry list (keys
unique; Go's iteration order is arbitrary). -/
structure CaveatDefinition where
  name : String
  parameterTypes : List (String × CaveatTypeReference)
  metadata : List MetadataMsg

/-- `compiler.CompiledSchema`: the fields `WriteSchemaTo` consumes. -/
structure CompiledSchema where
  objectDefinitions : List NamespaceDefinition
  caveatDefinitions : List CaveatDefinition

end Core

namespace Main

/-- Output `RelationType` struct (main.go:284-288); the Go field `Type`
is spelled `type_` (`Type` is reserved in Lean). -/
structure RelationType where
  type_ : String
  Relation : String
  Caveat : String

/-- Output `Relation` struct (main.go:278-282). -/
structure Relation where
  Name : String
  Types : List RelationType
  Comment : String

/-- Output `Permission` struct (main.go:290-294); a nil `*UserSet` is
`none`. -/
structure Permission where
  Name : String
  UserSet : Option Main.UserSet
  Comment : String

/-- Output `Definition` struct (main.go:270-276). -/
structure Definition where
  Name : String
  Namespace : String
  Relations : List Relation
  Permissions : List Permission
  Comment : String

/-- Output `Caveat` struct of main.go (303-307): parameters are a list of
declared type names only. -/
structure Caveat where
  Name : String
  Parameters : List String
  Comment : String

/-- Output `Schema` struct (main.go:309-312). -/
structure Schema where
  Definitions : List Definition
  Caveats : List Caveat

/-- `mapRelationType` (main.go:221-245): wildcard maps to `"*"`, the
sentinel self-reference `"..."` to `""`, any other named sub-relation to
itself; the caveat name is copied when present, else empty.  Pure and
total. -/
def mapRelationType (rt : Core.AllowedRelation) : RelationType :=
  let relationName :=
    match rt.relationOrWildcard with
    | .publicWildcard => "*"
    | .relation r => if r = "..." then "" else r
  let caveatName :=
    match rt.requiredCaveat with
    | some c => c.caveatName
    | none => ""
  ⟨rt.Namespace, relationName, caveatName⟩

/-- `mapRelation` (main.go:146-157); `none` models a comment-extraction
panic. -/
def mapRelation (r : Core.Relation) : Option Relation :=
  (getMetadataComments r.metadata).map fun c =>
    ⟨r.name, r.typeInformation.allowedDirectRelations.map mapRelationType, c⟩

/-- `mapPermission` (main.go:159-165). -/
def mapPermission (r : Core.Relation) : Option Permission :=
  (getMetadataComments r.metadata).map fun c =>
    ⟨r.name, mapUserSet r.usersetRewrite, c⟩

end Main

/-- `strings.SplitN(s, "/", 2)`: split at the first `'/'` only; a string
without the separator yields the one-element list. -/
def splitN2 : List Char → List (List Char)
  | [] => [[]]
  | c :: cs =>
    if c = '/' then [[], cs]
    else
      match splitN2 cs with
      | [] => [[c]]
      | x :: rest => (c :: x) :: rest

/-- The qualified-name split of `mapDefinition` (main.go:126-135): a
2-element split yields `(name, namespace) = (splits[1], splits[0])`,
otherwise the whole string is the name and the namespace is empty. -/
def defNameSplit (s : String) : String × String :=
  let splits := splitN2 s.data
  if splits.length = 2 then
    (String.mk (splits.getD 1 []), String.mk (splits.getD 0 []))
  else
    (String.mk (splits.getD 0 []), "")

namespace Main

/-- The classification error message of main.go:122 (`%q` renders the
name in quotes). -/
def unknownKindMsg (r : Core.Relation) : String :=
  "unexpected relation \"" ++ r.name ++ "\", neither permission nor relation"

/-- The relation loop of `mapDefinition` (main.go:113-124), in program
order: a permission kind maps the permission (possible comment panic
first), a relation kind maps the relation, any other kind returns the
classification error immediately; accumulated results are kept in source
order per group. -/
def mapRelationsAux : List Core.Relation →
    Option (Except String (List Relation × List Permission))
  | [] => some (.ok ([], []))
  | r :: rest =>
    match r.kind with
    | .PERMISSION =>
      match mapPermission r with
      | none => none
      | some p =>
        match mapRelationsAux rest with
        | none => none
        | some (.error e) => some (.error e)
        | some (.ok (rs, ps)) => some (.ok (rs, p :: ps))
    | .RELATION =>
      match mapRelation r with
      | none => none
      | some v =>
        match mapRelationsAux rest with
        | none => none
        | some (.error e) => some (.error e)
        | some (.ok (rs, ps)) => some (.ok (v :: rs, ps))
    | .UNKNOWN_KIND => some (.error (unknownKindMsg r))

/-- `mapDefinition` (main.go:112-144): classify and map each relation
(aborting with the classification error), split the qualified name, and
assemble the definition with its own extracted comment. -/
def mapDefinition (d : Core.NamespaceDefinition) :
    Option (Except String Definition) :=
  match mapRelationsAux d.relation with
  | none => none
  | some (.error e) => some (.error e)
  | some (.ok (rs, ps)) =>
    match getMetadataComments d.metadata with
    | none => none
    | some comment =>
      some (.ok ⟨(defNameSplit d.name).1, (defNameSplit d.name).2, rs, ps, comment⟩)

/-- `mapCaveat` of main.go (257-268): parameters are the type names of the
map's entries (in Go's arbitrary map-iteration order; modelled in entry
order). -/
def mapCaveat (c : Core.CaveatDefinition) : Option Caveat :=
  (getMetadataComments c.metadata).map fun cm =>
    ⟨c.name, c.parameterTypes.map (fun kv => kv.2.typeName), cm⟩

/-- The definitions loop of `WriteSchemaTo` (main.go:83-90): the first
definition whose mapping errors aborts with the error wrapped as
`failed to export %q: %w`. -/
def writeDefsAux : List Core.NamespaceDefinition →
    Option (Except String (List Definition))
  | [] => some (.ok [])
  | d :: rest =>
    match mapDefinition d with
    | none => none
    | some (.error e) =>
      some (.error ("failed to export \"" ++ d.name ++ "\": " ++ e))
    | some (.ok D) =>
      match writeDefsAux rest with
      | none => none
      | some (.error e) => some (.error e)
      | some (.ok ds) => some (.ok (D :: ds))

/-- The caveats loop of `WriteSchemaTo` (main.go:92-96); caveat mapping
has no error path (only the modelled comment panic). -/
def writeCaveatsAux : List Core.CaveatDefinition → Option (List Caveat)
  | [] => some []
  | c :: rest =>
    match mapCaveat c with
    | none => none
    | some v =>
      match writeCaveatsAux rest with
      | none => none
      | some vs => some (v :: vs)

/-- `WriteSchemaTo` (main.go:82-110) up to producing the in-memory
document: map every definition (aborting the whole operation on the first
wrapped error), then every caveat, and assemble the `Schema`.  The JSON
marshalling and writer calls that follow are the external serializer the
spec excludes; no document value exists on the error path. -/
def WriteSchemaTo (s : Core.CompiledSchema) : Option (Except String Schema) :=
  match writeDefsAux s.objectDefinitions with
  | none => none
  | some (.error e) => some (.error e)
  | some (.ok ds) =>
    match writeCaveatsAux s.caveatDefinitions with
    | none => none
    | some cs => some (.ok ⟨ds, cs⟩)

end Main

namespace MapSchema

/-- Output `Caveat` struct of mapSchema.go (144-148): parameters are the
Go map from parameter name to declared type name, modelled as its entry
list. -/
structure Caveat where
  Name : String
  Parameters : List (String × String)
  Comment : String

/-- `mapCaveat` of mapSchema.go (105-117): copy every declared parameter
entry, mapping its value to the declared type name. -/
def mapCaveat (c : Core.CaveatDefinition) : Option Caveat :=
  (getMetadataComments c.metadata).map fun cm =>
    ⟨c.name, c.parameterTypes.map (fun kv => (kv.1, kv.2.typeName)), cm⟩

end MapSchema

theorem splitN2_no_sep (s : List Char) (h : '/' ∉ s) : splitN2 s = [s] := by
  induction s with
  | nil => rfl
  | cons c cs ih =>
    have hc : ¬ c = '/' := fun e => h (e ▸ List.mem_cons_self c cs)
    simp only [splitN2, if_neg hc, ih fun hm => h (List.mem_cons_of_mem c hm)]

theorem splitN2_sep (a b : List Char) (h : '/' ∉ a) :
    splitN2 (a ++ '/' :: b) = [a, b] := by
  induction a with
  | nil => simp [splitN2]
  | cons c cs ih =>
    have hc : ¬ c = '/' := fun e => h (e ▸ List.mem_cons_self c cs)
    simp only [List.cons_append, splitN2, if_neg hc, List.append_eq,
      ih fun hm => h (List.mem_cons_of_mem c hm)]

theorem defNameSplit_sep (a b : List Char) (h : '/' ∉ a) :
    defNameSplit (String.mk (a ++ '/' :: b)) = (String.mk b, String.mk a) := by
  unfold defNameSplit
  rw [show (String.mk (a ++ '/' :: b)).data = a ++ '/' :: b from rfl,
    splitN2_sep a b h]
  rfl

theorem defNameSplit_no_sep (s : List Char) (h : '/' ∉ s) :
    defNameSplit (String.mk s) = (String.mk s, "") := by
  unfold defNameSplit
  rw [show (String.mk s).data = s from rfl, splitN2_no_sep s h]
  rfl

/-- C7: the definition mapper splits a qualified name on the first
separator occurrence only — a name `a ++ "/" ++ b` with no `'/'` in `a`
yields namespace `a` and local name `b` (so `"a/b/c"` keeps `"b/c"`
intact), and a name without the separator yields an empty namespace and
the whole string as the name. -/
theorem mapDefinition_splits_on_first_separator :
    (∀ a b : List Char, '/' ∉ a →
      Main.mapDefinition ⟨String.mk (a ++ '/' :: b), [], []⟩ =
        some (.ok ⟨String.mk b, String.mk a, [], [], ""⟩)) ∧
    (∀ s : List Char, '/' ∉ s →
      Main.mapDefinition ⟨String.mk s, [], []⟩ =
        some (.ok ⟨String.mk s, "", [], [], ""⟩)) := by
  have base : ∀ nm : String, Main.mapDefinition ⟨nm, [], []⟩ =
      some (.ok ⟨(defNameSplit nm).1, (defNameSplit nm).2, [], [], ""⟩) :=
    fun nm => rfl
  constructor
  · intro a b h
    rw [base, defNameSplit_sep a b h]
  · intro s h
    rw [base, defNameSplit_no_sep s h]

/-- Witness for C7 at the three documented inputs: `"a/b"` →
`("a", "b")`, `"b"` → `("", "b")`, `"a/b/c"` → `("a", "b/c")`. -/
theorem mapDefinition_splits_on_first_separator_witness :
    Main.mapDefinition ⟨"a/b", [], []⟩ =
      some (.ok ⟨"b", "a", [], [], ""⟩) ∧
    Main.mapDefinition ⟨"b", [], []⟩ =
      some (.ok ⟨"b", "", [], [], ""⟩) ∧
    Main.mapDefinition ⟨"a/b/c", [], []⟩ =
      some (.ok ⟨"b/c", "a", [], [], ""⟩) :=
  ⟨mapDefinition_splits_on_first_separator.1 ['a'] ['b'] (by decide),
   mapDefinition_splits_on_first_separator.2 ['b'] (by decide),
   mapDefinition_splits_on_first_separator.1 ['a'] ['b', '/', 'c'] (by decide)⟩

/-- C8: the type-reference mapper sets `relation` to `"*"` for the
wildcard variant, to `""` for the sentinel self-reference `"..."`, and to
the named sub-relation otherwise; `caveat` is the required-caveat name
when present and `""` otherwise; `type` is the target namespace.  The
mapper is a total Lean function, as the Go code performs no partial
operation. -/
theorem mapRelationType_wildcard_self_caveat :
    (∀ t c, (Main.mapRelationType ⟨t, .publicWildcard, c⟩).Relation = "*") ∧
    (∀ t c, (Main.mapRelationType ⟨t, .relation "...", c⟩).Relation = "") ∧
    (∀ t c rel, rel ≠ "..." →
      (Main.mapRelationType ⟨t, .relation rel, c⟩).Relation = rel) ∧
    (∀ t w cn, (Main.mapRelationType ⟨t, w, some ⟨cn⟩⟩).Caveat = cn) ∧
    (∀ t w, (Main.mapRelationType ⟨t, w, none⟩).Caveat = "") ∧
    (∀ t w c, (Main.mapRelationType ⟨t, w, c⟩).type_ = t) := by
  refine ⟨fun t c => rfl, fun t c => rfl, ?_, fun t w cn => rfl,
    fun t w => rfl, fun t w c => rfl⟩
  intro t c rel h
  simp [Main.mapRelationType, if_neg h]

/-- Witness for C8 at concrete references. -/
theorem mapRelationType_wildcard_self_caveat_witness :
    (Main.mapRelationType ⟨"user", .publicWildcard, none⟩).Relation = "*" ∧
    (Main.mapRelationType ⟨"user", .relation "...", none⟩).Relation = "" ∧
    (Main.mapRelationType ⟨"group", .relation "member", none⟩).Relation =
      "member" ∧
    (Main.mapRelationType ⟨"user", .relation "...",
      some ⟨"ip_allowlist"⟩⟩).Caveat = "ip_allowlist" ∧
    (Main.mapRelationType ⟨"user", .publicWildcard, none⟩).Caveat = "" :=
  ⟨mapRelationType_wildcard_self_caveat.1 "user" none,
   mapRelationType_wildcard_self_caveat.2.1 "user" none,
   mapRelationType_wildcard_self_caveat.2.2.1 "group" none "member" (by decide),
   mapRelationType_wildcard_self_caveat.2.2.2.1 "user" (.relation "...")
     "ip_allowlist",
   mapRelationType_wildcard_self_caveat.2.2.2.2.1 "user" .publicWildcard⟩

theorem lookup_map_typeName (l : List (String × Core.CaveatTypeReference))
    (k : String) :
    (l.map fun kv => (kv.1, kv.2.typeName)).lookup k =
      (l.lookup k).map Core.CaveatTypeReference.typeName := by
  induction l with
  | nil => rfl
  | cons kv rest ih =>
    by_cases h : k = kv.1
    · have hb : (k == kv.1) = true := beq_iff_eq.mpr h
      simp [List.lookup, hb]
    · have hb : (k == kv.1) = false := beq_eq_false_iff_ne.mpr h
      simp [List.lookup, hb, ih]

/-- C2: the caveat mapper's `parameters` mapping has exactly the declared
parameter names as keys (same key list, hence no additions or removals and
no duplicates beyond the source's) and sends each key to its exact
declared type name. -/
theorem mapCaveat_parameters_exact (c : Core.CaveatDefinition)
    (v : MapSchema.Caveat) (h : MapSchema.mapCaveat c = some v) :
    v.Parameters.map Prod.fst = c.parameterTypes.map Prod.fst ∧
    ∀ k, v.Parameters.lookup k =
      (c.parameterTypes.lookup k).map Core.CaveatTypeReference.typeName := by
  unfold MapSchema.mapCaveat at h
  cases hm : MapSchema.getMetadataComments c.metadata with
  | none => rw [hm] at h; exact absurd h (by simp)
  | some cm =>
    rw [hm] at h
    simp only [Option.map_some', Option.some.injEq] at h
    subst h
    constructor
    · simp [List.map_map, Function.comp]
    · intro k
      exact lookup_map_typeName c.parameterTypes k

/-- Example caveat for C2's witness: declared parameters
`(ip : ipaddress, limit : int)`. -/
def caveatExample : Core.CaveatDefinition :=
  ⟨"allowed_ip", [("ip", ⟨"ipaddress"⟩), ("limit", ⟨"int"⟩)], []⟩

/-- Witness for C2 at `caveatExample`: the output parameter mapping is
exactly `ip ↦ ipaddress, limit ↦ int`, and absent keys stay absent. -/
theorem mapCaveat_parameters_exact_witness :
    MapSchema.mapCaveat caveatExample =
      some ⟨"allowed_ip", [("ip", "ipaddress"), ("limit", "int")], ""⟩ ∧
    ([("ip", "ipaddress"), ("limit", "int")] :
        List (String × String)).map Prod.fst =
      caveatExample.parameterTypes.map Prod.fst ∧
    (([("ip", "ipaddress"), ("limit", "int")] :
        List (String × String)).lookup "ip" = some "ipaddress" ∧
     ([("ip", "ipaddress"), ("limit", "int")] :
        List (String × String)).lookup "other" = none) :=
  ⟨rfl,
   (mapCaveat_parameters_exact caveatExample
     ⟨"allowed_ip", [("ip", "ipaddress"), ("limit", "int")], ""⟩ rfl).1,
   ((mapCaveat_parameters_exact caveatExample
     ⟨"allowed_ip", [("ip", "ipaddress"), ("limit", "int")], ""⟩ rfl).2
       "ip").trans rfl,
   ((mapCaveat_parameters_exact caveatExample
     ⟨"allowed_ip", [("ip", "ipaddress"), ("limit", "int")], ""⟩ rfl).2
       "other").trans rfl⟩

theorem mapRelation_total (r : Core.Relation)
    (h : metadataOk r.metadata = true) : ∃ v, Main.mapRelation r = some v := by
  obtain ⟨l, hl⟩ := commentFold_total_of_metadataOk r.metadata h
  refine ⟨⟨r.name,
    r.typeInformation.allowedDirectRelations.map Main.mapRelationType,
    String.mk (trimSpace l)⟩, ?_⟩
  simp [Main.mapRelation, Main.getMetadataComments, hl]

theorem mapPermission_total (r : Core.Relation)
    (h : metadataOk r.metadata = true) : ∃ v, Main.mapPermission r = some v := by
  obtain ⟨l, hl⟩ := commentFold_total_of_metadataOk r.metadata h
  refine ⟨⟨r.name, Main.mapUserSet r.usersetRewrite,
    String.mk (trimSpace l)⟩, ?_⟩
  simp [Main.mapPermission, Main.getMetadataComments, hl]

/-- The relation-side entry a source relation contributes to the output's
`relations` group (none unless its kind is `RELATION`). -/
def relationEntry (r : Core.Relation) : Option Main.Relation :=
  match r.kind with
  | .RELATION => Main.mapRelation r
  | _ => none

/-- The permission-side entry a source relation contributes to the
output's `permissions` group (none unless its kind is `PERMISSION`). -/
def permissionEntry (r : Core.Relation) : Option Main.Permission :=
  match r.kind with
  | .PERMISSION => Main.mapPermission r
  | _ => none

theorem mapRelationsAux_partition :
    ∀ (l : List Core.Relation) (rs : List Main.Relation)
      (ps : List Main.Permission),
      Main.mapRelationsAux l = some (.ok (rs, ps)) →
      rs = l.filterMap relationEntry ∧ ps = l.filterMap permissionEntry := by
  intro l
  induction l with
  | nil =>
    intro rs ps h
    simp only [Main.mapRelationsAux, Option.some.injEq, Except.ok.injEq,
      Prod.mk.injEq] at h
    simp [← h.1, ← h.2]
  | cons r rest ih =>
    intro rs ps h
    cases hk : r.kind with
    | UNKNOWN_KIND => simp [Main.mapRelationsAux, hk] at h
    | RELATION =>
      rw [Main.mapRelationsAux, hk] at h
      cases hv : Main.mapRelation r with
      | none => rw [hv] at h; exact absurd h (by simp)
      | some v =>
        rw [hv] at h
        cases haux : Main.mapRelationsAux rest with
        | none => rw [haux] at h; exact absurd h (by simp)
        | some res =>
          rw [haux] at h
          cases res with
          | error e => exact absurd h (by simp)
          | ok pair =>
            obtain ⟨rs', ps'⟩ := pair
            simp only [Option.some.injEq, Except.ok.injEq, Prod.mk.injEq] at h
            obtain ⟨hrs, hps⟩ := ih rs' ps' haux
            refine ⟨?_, ?_⟩
            · rw [← h.1, List.filterMap_cons, show relationEntry r = some v by
                simp [relationEntry, hk, hv], hrs]
            · rw [← h.2, List.filterMap_cons, show permissionEntry r = none by
                simp [permissionEntry, hk], hps]
    | PERMISSION =>
      rw [Main.mapRelationsAux, hk] at h
      cases hv : Main.mapPermission r with
      | none => rw [hv] at h; exact absurd h (by simp)
      | some v =>
        rw [hv] at h
        cases haux : Main.mapRelationsAux rest with
        | none => rw [haux] at h; exact absurd h (by simp)
        | some res =>
          rw [haux] at h
          cases res with
          | error e => exact absurd h (by simp)
          | ok pair =>
            obtain ⟨rs', ps'⟩ := pair
            simp only [Option.some.injEq, Except.ok.injEq, Prod.mk.injEq] at h
            obtain ⟨hrs, hps⟩ := ih rs' ps' haux
            refine ⟨?_, ?_⟩
            · rw [← h.1, List.filterMap_cons, show relationEntry r = none by
                simp [relationEntry, hk], hrs]
            · rw [← h.2, List.filterMap_cons, show permissionEntry r = some v by
                simp [permissionEntry, hk, hv], hps]

theorem mapRelationsAux_total :
    ∀ l : List Core.Relation,
      (∀ r ∈ l, r.kind ≠ Core.RelationKind.UNKNOWN_KIND) →
      (∀ r ∈ l, metadataOk r.metadata = true) →
      ∃ rs ps, Main.mapRelationsAux l = some (.ok (rs, ps)) := by
  intro l
  induction l with
  | nil => exact fun _ _ => ⟨[], [], rfl⟩
  | cons r rest ih =>
    intro h1 h2
    obtain ⟨rs, ps, haux⟩ :=
      ih (fun x hx => h1 x (List.mem_cons_of_mem r hx))
        (fun x hx => h2 x (List.mem_cons_of_mem r hx))
    have hmr := h2 r (List.mem_cons_self r rest)
    cases hk : r.kind with
    | UNKNOWN_KIND => exact absurd hk (h1 r (List.mem_cons_self r rest))
    | RELATION =>
      obtain ⟨v, hv⟩ := mapRelation_total r hmr
      exact ⟨v :: rs, ps, by simp [Main.mapRelationsAux, hk, hv, haux]⟩
    | PERMISSION =>
      obtain ⟨v, hv⟩ := mapPermission_total r hmr
      exact ⟨rs, v :: ps, by simp [Main.mapRelationsAux, hk, hv, haux]⟩

/-- C6: a well-formed object-type definition (every relation's kind
recognized, metadata payloads carrying their 2-byte prefix) maps
successfully, and each source relation lands in exactly one of the output
groups: `Relations` is exactly the source-order image of the
`RELATION`-kind relations and `Permissions` exactly the source-order image
of the `PERMISSION`-kind ones (the two kinds are mutually exclusive, so
the groups partition the source list). -/
theorem mapDefinition_partitions_relations (d : Core.NamespaceDefinition)
    (h1 : ∀ r ∈ d.relation, r.kind ≠ Core.RelationKind.UNKNOWN_KIND)
    (h2 : metadataOk d.metadata = true)
    (h3 : ∀ r ∈ d.relation, metadataOk r.metadata = true) :
    ∃ D : Main.Definition, Main.mapDefinition d = some (.ok D) ∧
      D.Relations = d.relation.filterMap relationEntry ∧
      D.Permissions = d.relation.filterMap permissionEntry := by
  obtain ⟨rs, ps, haux⟩ := mapRelationsAux_total d.relation h1 h3
  obtain ⟨hrs, hps⟩ := mapRelationsAux_partition d.relation rs ps haux
  obtain ⟨cl, hcl⟩ := commentFold_total_of_metadataOk d.metadata h2
  exact ⟨⟨(defNameSplit d.name).1, (defNameSplit d.name).2, rs, ps,
      String.mk (trimSpace cl)⟩,
    by simp [Main.mapDefinition, haux, Main.getMetadataComments, hcl],
    hrs, hps⟩

/-- Example definition for C6's witness: one storage relation and one
permission. -/
def definitionExample : Core.NamespaceDefinition :=
  ⟨"ns/document",
   [⟨"viewer", ⟨[⟨"user", .relation "...", none⟩]⟩, .unset, [],
      .RELATION⟩,
    ⟨"view", ⟨[]⟩, .union [.computedUserset "viewer"], [], .PERMISSION⟩],
   []⟩

/-- Witness for C6 at `definitionExample`. -/
theorem mapDefinition_partitions_relations_witness :
    ∃ D : Main.Definition,
      Main.mapDefinition definitionExample = some (.ok D) ∧
      D.Relations = definitionExample.relation.filterMap relationEntry ∧
      D.Permissions = definitionExample.relation.filterMap permissionEntry :=
  mapDefinition_partitions_relations definitionExample
    (by decide) (by decide) (by decide)

theorem mapRelationsAux_error :
    ∀ l : List Core.Relation,
      (∀ r ∈ l, metadataOk r.metadata = true) →
      (∃ r ∈ l, r.kind = Core.RelationKind.UNKNOWN_KIND) →
      ∃ r ∈ l, r.kind = Core.RelationKind.UNKNOWN_KIND ∧
        Main.mapRelationsAux l = some (.error (Main.unknownKindMsg r)) := by
  intro l
  induction l with
  | nil => intro _ hbad; exact absurd hbad (by simp)
  | cons r rest ih =>
    intro hm hbad
    cases hk : r.kind with
    | UNKNOWN_KIND =>
      exact ⟨r, List.mem_cons_self r rest, hk,
        by simp [Main.mapRelationsAux, hk]⟩
    | RELATION =>
      have hbad' : ∃ x ∈ rest, x.kind = Core.RelationKind.UNKNOWN_KIND := by
        obtain ⟨x, hx, hxk⟩ := hbad
        cases List.mem_cons.mp hx with
        | inl e => rw [e, hk] at hxk; exact absurd hxk (by simp)
        | inr hx' => exact ⟨x, hx', hxk⟩
      obtain ⟨x, hx, hxk, he⟩ :=
        ih (fun y hy => hm y (List.mem_cons_of_mem r hy)) hbad'
      obtain ⟨v, hv⟩ := mapRelation_total r (hm r (List.mem_cons_self r rest))
      exact ⟨x, List.mem_cons_of_mem r hx, hxk,
        by simp [Main.mapRelationsAux, hk, hv, he]⟩
    | PERMISSION =>
      have hbad' : ∃ x ∈ rest, x.kind = Core.RelationKind.UNKNOWN_KIND := by
        obtain ⟨x, hx, hxk⟩ := hbad
        cases List.mem_cons.mp hx with
        | inl e => rw [e, hk] at hxk; exact absurd hxk (by simp)
        | inr hx' => exact ⟨x, hx', hxk⟩
      obtain ⟨x, hx, hxk, he⟩ :=
        ih (fun y hy => hm y (List.mem_cons_of_mem r hy)) hbad'
      obtain ⟨v, hv⟩ := mapPermission_total r (hm r (List.mem_cons_self r rest))
      exact ⟨x, List.mem_cons_of_mem r hx, hxk,
        by simp [Main.mapRelationsAux, hk, hv, he]⟩

theorem mapDefinition_error_of_bad (d : Core.NamespaceDefinition)
    (hm : ∀ r ∈ d.relation, metadataOk r.metadata = true)
    (hbad : ∃ r ∈ d.relation, r.kind = Core.RelationKind.UNKNOWN_KIND) :
    ∃ r ∈ d.relation, r.kind = Core.RelationKind.UNKNOWN_KIND ∧
      Main.mapDefinition d = some (.error (Main.unknownKindMsg r)) := by
  obtain ⟨r, hr, hk, he⟩ := mapRelationsAux_error d.relation hm hbad
  exact ⟨r, hr, hk, by simp [Main.mapDefinition, he]⟩

theorem writeDefsAux_error :
    ∀ ds : List Core.NamespaceDefinition,
      (∀ d ∈ ds, metadataOk d.metadata = true ∧
        ∀ r ∈ d.relation, metadataOk r.metadata = true) →
      (∃ d ∈ ds, ∃ r ∈ d.relation,
        r.kind = Core.RelationKind.UNKNOWN_KIND) →
      ∃ d ∈ ds, ∃ r ∈ d.relation,
        r.kind = Core.RelationKind.UNKNOWN_KIND ∧
        Main.writeDefsAux ds = some (.error
          ("failed to export \"" ++ d.name ++ "\": " ++
            Main.unknownKindMsg r)) := by
  intro ds
  induction ds with
  | nil => intro _ hbad; exact absurd hbad (by simp)
  | cons d rest ih =>
    intro hm hbad
    by_cases hd : ∃ r ∈ d.relation, r.kind = Core.RelationKind.UNKNOWN_KIND
    · obtain ⟨r, hr, hk, he⟩ :=
        mapDefinition_error_of_bad d (hm d (List.mem_cons_self d rest)).2 hd
      exact ⟨d, List.mem_cons_self d rest, r, hr, hk,
        by simp [Main.writeDefsAux, he]⟩
    · have hbad' : ∃ d' ∈ rest, ∃ r ∈ d'.relation,
          r.kind = Core.RelationKind.UNKNOWN_KIND := by
        obtain ⟨d', hd', hbd⟩ := hbad
        cases List.mem_cons.mp hd' with
        | inl e => exact absurd (e ▸ hbd) hd
        | inr h' => exact ⟨d', h', hbd⟩
      have hgood : ∀ r ∈ d.relation,
          r.kind ≠ Core.RelationKind.UNKNOWN_KIND :=
        fun r hr hk => hd ⟨r, hr, hk⟩
      obtain ⟨D, hD, -, -⟩ := mapDefinition_partitions_relations d hgood
        (hm d (List.mem_cons_self d rest)).1
        (hm d (List.mem_cons_self d rest)).2
      obtain ⟨d', hd', r, hr, hk, he⟩ :=
        ih (fun y hy => hm y (List.mem_cons_of_mem d hy)) hbad'
      exact ⟨d', List.mem_cons_of_mem d hd', r, hr, hk,
        by simp [Main.writeDefsAux, hD, he]⟩

/-- C5: a compiled schema containing a definition with a relation of
unrecognized kind makes the definition mapper return the classification
error; the document assembler wraps it as `failed to export "<name>": …`
naming the offending definition and aborts the whole operation — the
overall result is that error and no `Schema` document exists.  (The
hypothesis `hm` states that doc-comment payloads carry the 2-byte prefix
the upstream compiler always emits; without it the Go code panics first,
see `getMetadataComments_panics_on_short_payload`.) -/
theorem writeSchema_aborts_on_classification_error (s : Core.CompiledSchema)
    (hm : ∀ d ∈ s.objectDefinitions, metadataOk d.metadata = true ∧
      ∀ r ∈ d.relation, metadataOk r.metadata = true)
    (hbad : ∃ d ∈ s.objectDefinitions, ∃ r ∈ d.relation,
      r.kind = Core.RelationKind.UNKNOWN_KIND) :
    ∃ d ∈ s.objectDefinitions, ∃ r ∈ d.relation,
      r.kind = Core.RelationKind.UNKNOWN_KIND ∧
      Main.WriteSchemaTo s = some (.error
        ("failed to export \"" ++ d.name ++ "\": " ++
          Main.unknownKindMsg r)) := by
  obtain ⟨d, hd, r, hr, hk, he⟩ :=
    writeDefsAux_error s.objectDefinitions hm hbad
  exact ⟨d, hd, r, hr, hk, by simp [Main.WriteSchemaTo, he]⟩

/-- Example schema for C5's witness: its only definition carries a
relation whose kind is neither storage relation nor permission. -/
def schemaExample : Core.CompiledSchema :=
  ⟨[⟨"ns/doc", [⟨"weird", ⟨[]⟩, .unset, [], .UNKNOWN_KIND⟩], []⟩], []⟩

/-- Witness for C5 at `schemaExample`; concretely the result is
`some (.error "failed to export \x22ns/doc\x22: unexpected relation
\x22weird\x22, neither permission nor relation")`. -/
theorem writeSchema_aborts_on_classification_error_witness :
    ∃ d ∈ schemaExample.objectDefinitions, ∃ r ∈ d.relation,
      r.kind = Core.RelationKind.UNKNOWN_KIND ∧
      Main.WriteSchemaTo schemaExample = some (.error
        ("failed to export \"" ++ d.name ++ "\": " ++
          Main.unknownKindMsg r)) :=
  writeSchema_aborts_on_classification_error schemaExample
    (by decide) (by decide)
